import Mathlib

/-
Verification of the barista-bot core: the transaction execution layer
(`ContractService.queueTransaction` / `processQueue` / `executeWithNonce`,
src/services/contractService.ts) and the market-maker reconciliation engine
(`MarketMaker`, src/services/marketMaker.ts).

The TypeScript code is shallowly embedded:
- bigint arithmetic becomes `Int` with `Int.tdiv` (TS bigint division
  truncates toward zero);
- JS `Math.max(0, a - b)` on non-negative integer counts becomes `Nat`
  subtraction;
- the fallible external calls (`transaction()`, `getTransactionCount`)
  become `Except String` values supplied by the caller, indexed by
  invocation where the code may call them several times;
- the cooperative event loop behind the transaction queue becomes a
  small-step relation on an explicit queue state, with interleaving
  allowed at every `await` suspension point.

Observable behaviour (attempted sends, nonce re-fetches, backoff sleeps,
scheduled resyncs, cancel/place calls) is recorded as explicit event
traces so that counting and ordering properties can be stated.
-/

namespace BaristaBot

/-! ## Error classification (contractService.ts, executeWithNonce catch block)

`errorMsg.includes(...)` on JS strings is substring containment. -/

/-- Bool test that the first list is an initial segment of the second. -/
def leadsWith : List Char → List Char → Bool
  | [], _ => true
  | _ :: _, [] => false
  | a :: as, b :: bs => a == b && leadsWith as bs

/-- Bool test that `sub` occurs contiguously somewhere in the second list. -/
def hasInfix (sub : List Char) : List Char → Bool
  | [] => leadsWith sub []
  | c :: cs => leadsWith sub (c :: cs) || hasInfix sub cs

/-- JS `s.includes(sub)`: substring containment on strings. -/
def strIncludes (s sub : String) : Bool := hasInfix sub.toList s.toList

/-- The nonce-class error test from `executeWithNonce`:
`errorMsg.includes("nonce") || errorMsg.includes("replacement transaction underpriced")
|| errorMsg.includes("already known")`. -/
def isNonceError (msg : String) : Bool :=
  strIncludes msg "nonce" ||
  strIncludes msg "replacement transaction underpriced" ||
  strIncludes msg "already known"

/-! ## Nonce state and the `executeWithNonce` retry loop -/

/-- The mutable nonce-tracking fields of `ContractService`:
`currentNonce: number | null` and `pendingTransactions`. -/
structure NonceState where
  currentNonce : Option Nat
  pendingTransactions : Nat
  deriving DecidableEq, Repr

/-- Observable events of one `executeWithNonce` run, in order:
`txAttempt n` is an invocation of `transaction()` while the local
nonce counter holds `n`; `fetchNonce` is a `getTransactionCount` call on
the nonce-error retry path; `sleep ms` is the backoff delay; and
`resyncScheduled` is the `setTimeout` drift-resync scheduled after the
5th accepted send. -/
inductive Ev where
  | txAttempt (nonce : Option Nat)
  | fetchNonce
  | sleep (ms : Nat)
  | resyncScheduled
  deriving DecidableEq, Repr

/-- The `while (attempt < retries)` loop of `executeWithNonce`.
`fuel = retries - attempt` counts the remaining loop iterations;
`tx a` is the outcome of the `transaction()` invocation made at attempt
index `a`; `netNonce a` is the outcome of the `getTransactionCount`
call made on the retry path of attempt `a`.  Returns the result, the
final nonce state, and the event trace. -/
def ewnLoop {α : Type} (tx : Nat → Except String α) (netNonce : Nat → Except String Nat) :
    Nat → Nat → NonceState → Option String → Except String α × NonceState × List Ev
  | 0, _, st, lastError => (Except.error (lastError.getD "undefined"), st, [])
  | fuel + 1, attempt, st, _ =>
    match tx attempt with
    | Except.ok v =>
      let st' : NonceState := ⟨st.currentNonce.map (· + 1), st.pendingTransactions + 1⟩
      if st'.pendingTransactions ≥ 5 then
        (Except.ok v, st', [Ev.txAttempt st.currentNonce, Ev.resyncScheduled])
      else
        (Except.ok v, st', [Ev.txAttempt st.currentNonce])
    | Except.error msg =>
      if isNonceError msg then
        let st' : NonceState :=
          match netNonce attempt with
          | Except.ok n => ⟨some n, st.pendingTransactions⟩
          | Except.error _ => st
        let r := ewnLoop tx netNonce fuel (attempt + 1) st' (some msg)
        (r.1, r.2.1,
          Ev.txAttempt st.currentNonce :: Ev.fetchNonce :: Ev.sleep (2 ^ attempt * 1000) :: r.2.2)
      else
        (Except.error msg, st, [Ev.txAttempt st.currentNonce])

/-- `ContractService.executeWithNonce(transaction, retries)`:
lazily fetches the on-chain transaction count when `currentNonce` is
null (`initFetch` is that call's outcome; a failure there propagates),
then runs the retry loop starting at attempt 0. -/
def executeWithNonce {α : Type} (tx : Nat → Except String α)
    (initFetch : Except String Nat) (netNonce : Nat → Except String Nat)
    (retries : Nat) (st : NonceState) : Except String α × NonceState × List Ev :=
  match st.currentNonce with
  | some _ => ewnLoop tx netNonce retries 0 st none
  | none =>
    match initFetch with
    | Except.error e => (Except.error e, st, [])
    | Except.ok n => ewnLoop tx netNonce retries 0 ⟨some n, st.pendingTransactions⟩ none

/-- A `transaction()` that is accepted on its first invocation. -/
def okSend : Nat → Except String Nat := fun _ => Except.ok 0

/-- The local-nonce values at which `transaction()` was invoked, read off
an event trace. -/
def assignedNonces (evs : List Ev) : List (Option Nat) :=
  evs.filterMap fun e =>
    match e with
    | Ev.txAttempt n => some n
    | _ => none

/-- A sequence of `k` submissions through one `ContractService`, each
accepted on its first attempt, threading the nonce state; returns the
concatenated assigned-nonce trace and the final state.  Scheduled drift
resyncs remain pending events (they run asynchronously), matching a run
with no intervening resync. -/
def runSends (initFetch : Except String Nat) (netNonce : Nat → Except String Nat) :
    Nat → NonceState → List (Option Nat) × NonceState
  | 0, st => ([], st)
  | k + 1, st =>
    let r := executeWithNonce okSend initFetch netNonce 5 st
    let rest := runSends initFetch netNonce k r.2.1
    (assignedNonces r.2.2 ++ rest.1, rest.2)

/-! ## The transaction queue (`queueTransaction` / `processQueue`)

Submissions are numbered in the order `queueTransaction` is called.
`transactionQueue` holds the not-yet-started submissions in array order,
`processingQueue` is the boolean drain guard, `running` holds the
submissions whose wrapped `txFunc` has been invoked but has not yet
terminally resolved, and `resolved` lists terminally resolved
submissions in resolution order.  `running` is a list precisely so that
the absence of concurrent execution is a provable property of the guard
discipline rather than an assumption of the model. -/

structure QState where
  nextId : Nat
  transactionQueue : List Nat
  processingQueue : Bool
  running : List Nat
  resolved : List Nat
  deriving DecidableEq, Repr

/-- The synchronous prefix of `processQueue()`: return if the guard is
set or the queue is empty, otherwise set the guard, shift the first
queued submission and invoke its `txFunc` (which then suspends at its
first `await`). -/
def processQueueSync (s : QState) : QState :=
  if s.processingQueue then s
  else
    match s.transactionQueue with
    | [] => s
    | hd :: tl =>
      { s with processingQueue := true, transactionQueue := tl, running := s.running ++ [hd] }

/-- `queueTransaction`: push the new submission onto the queue, then
synchronously call `processQueue()`. -/
def queueTransactionCall (s : QState) : QState :=
  processQueueSync
    { s with nextId := s.nextId + 1, transactionQueue := s.transactionQueue ++ [s.nextId] }

/-- Event-loop steps of the transaction queue.  `submit` is a
`queueTransaction` call; `complete` is the running `txFunc` reaching
terminal resolution (its promise resolved or rejected) followed by the
`finally` block clearing the guard; `kick` is a `processQueue()` call
with no accompanying push (the 100 ms `setTimeout` callback; allowing it
at any time only widens the set of modelled schedules). -/
inductive QStep : QState → QState → Prop where
  | submit (s : QState) : QStep s (queueTransactionCall s)
  | complete (s : QState) (id : Nat) (h : s.running = [id]) :
      QStep s { s with running := [], processingQueue := false, resolved := s.resolved ++ [id] }
  | kick (s : QState) : QStep s (processQueueSync s)

/-- The queue state of a freshly constructed `ContractService`. -/
def QInit : QState := ⟨0, [], false, [], []⟩

/-- Queue states reachable from the initial state by event-loop steps. -/
inductive QReach : QState → Prop where
  | init : QReach QInit
  | step {s t : QState} : QReach s → QStep s t → QReach t

/-- The queue invariant: at most one submission is executing, none is
executing while the guard is clear, and resolved, running and queued
submissions in order are exactly the submissions accepted so far. -/
def QInv (s : QState) : Prop :=
  s.running.length ≤ 1 ∧
  (s.processingQueue = false → s.running = []) ∧
  s.resolved ++ s.running ++ s.transactionQueue = List.range s.nextId

/-! ## The market maker (marketMaker.ts) -/

/-- Order side, from types.ts (`enum Side { BUY = 0, SELL = 1 }`). -/
inductive Side where
  | buy
  | sell
  deriving DecidableEq, Repr

/-- `minPriceIncrement = 10000n` (0.01 USDC in 6-decimal format). -/
def minPriceIncrement : Int := 10000

/-- `MarketMaker.roundToNearestPriceIncrement`: truncate to the price
increment by floor division (bigint division of non-negative prices). -/
def roundToNearestPriceIncrement (price : Int) : Int :=
  price.tdiv minPriceIncrement * minPriceIncrement

/-- `ContractService.PRICE_DECIMALS = 8`, the internal price scale. -/
def priceDecimalsConst : Nat := 8

/-- `ContractService.formatPrice`: rescale an 8-decimal internal price
to the quote token's decimals. -/
def formatPrice (quoteDecimals : Nat) (price : Int) : Int :=
  if quoteDecimals = priceDecimalsConst then price
  else if quoteDecimals < priceDecimalsConst then
    price.tdiv ((10 : Int) ^ (priceDecimalsConst - quoteDecimals))
  else price * (10 : Int) ^ (quoteDecimals - priceDecimalsConst)

/-- `totalBasisPoints = spreadBasisPoints + priceStepBasisPoints * BigInt(i)`. -/
def totalBasisPoints (spreadBasisPoints priceStepBasisPoints : Int) (i : Nat) : Int :=
  spreadBasisPoints + priceStepBasisPoints * (i : Int)

/-- `buyPrice = lastMidPrice - (lastMidPrice * totalBasisPoints / 10000n)`. -/
def ladderBuyPrice (mid spreadBasisPoints priceStepBasisPoints : Int) (i : Nat) : Int :=
  mid - (mid * totalBasisPoints spreadBasisPoints priceStepBasisPoints i).tdiv 10000

/-- `sellPrice = lastMidPrice + (lastMidPrice * totalBasisPoints / 10000n)`. -/
def ladderSellPrice (mid spreadBasisPoints priceStepBasisPoints : Int) (i : Nat) : Int :=
  mid + (mid * totalBasisPoints spreadBasisPoints priceStepBasisPoints i).tdiv 10000

/-- An exchange call issued by the market maker during one cycle. -/
inductive MMAction where
  | cancelAction (orderId : Nat)
  | placeAction (side : Side) (price : Int)
  deriving DecidableEq, Repr

/-- An open order as seen by `cancelAllOrders`, together with whether
its individual cancel transaction will fail (the failure is caught and
logged inside the per-order callback). -/
structure OrderInfo where
  id : Nat
  cancelFails : Bool
  deriving DecidableEq, Repr

/-- `MarketMaker.cancelAllOrders`: one `cancelOrder` call per currently
open order via `Promise.all`; each callback has its own try/catch, so a
failing cancel does not remove or abort any sibling call. -/
def cancelAllOrders (orders : List OrderInfo) : List MMAction :=
  orders.map fun o => MMAction.cancelAction o.id

/-- `MarketMaker.placeMakerOrders`: no calls when no mid price is
available, else one buy per rung then one sell per rung, prices from the
basis-point ladder formula, rescaled and truncated to the increment. -/
def placeMakerOrders (lastMidPrice spreadBasisPoints priceStepBasisPoints : Int)
    (maxOrdersPerSide quoteDecimals : Nat) : List MMAction :=
  if lastMidPrice = 0 then []
  else
    ((List.range maxOrdersPerSide).map fun i =>
      MMAction.placeAction Side.buy (roundToNearestPriceIncrement (formatPrice quoteDecimals
        (ladderBuyPrice lastMidPrice spreadBasisPoints priceStepBasisPoints i)))) ++
    ((List.range maxOrdersPerSide).map fun i =>
      MMAction.placeAction Side.sell (roundToNearestPriceIncrement (formatPrice quoteDecimals
        (ladderSellPrice lastMidPrice spreadBasisPoints priceStepBasisPoints i))))

/-- `MarketMaker.cancelAndReplaceOrders`: cancel everything, then place
the full fresh ladder. -/
def cancelAndReplaceOrders (orders : List OrderInfo)
    (lastMidPrice spreadBasisPoints priceStepBasisPoints : Int)
    (maxOrdersPerSide quoteDecimals : Nat) : List MMAction :=
  cancelAllOrders orders ++
    placeMakerOrders lastMidPrice spreadBasisPoints priceStepBasisPoints
      maxOrdersPerSide quoteDecimals

/-- `MarketMaker.fillMissingOrders`: per side, `Math.max(0, maxOrdersPerSide
- count)` missing rungs (`Nat` subtraction is exactly that on counts), each
new rung at position `maxOrdersPerSide - toAdd + i`. -/
def fillMissingOrders (maxOrdersPerSide buyCount sellCount : Nat)
    (lastMidPrice spreadBasisPoints priceStepBasisPoints : Int)
    (quoteDecimals : Nat) : List MMAction :=
  let buyOrdersToAdd := maxOrdersPerSide - buyCount
  let sellOrdersToAdd := maxOrdersPerSide - sellCount
  if buyOrdersToAdd > 0 ∨ sellOrdersToAdd > 0 then
    ((List.range buyOrdersToAdd).map fun i =>
      MMAction.placeAction Side.buy (roundToNearestPriceIncrement (formatPrice quoteDecimals
        (ladderBuyPrice lastMidPrice spreadBasisPoints priceStepBasisPoints
          (maxOrdersPerSide - buyOrdersToAdd + i))))) ++
    ((List.range sellOrdersToAdd).map fun i =>
      MMAction.placeAction Side.sell (roundToNearestPriceIncrement (formatPrice quoteDecimals
        (ladderSellPrice lastMidPrice spreadBasisPoints priceStepBasisPoints
          (maxOrdersPerSide - sellOrdersToAdd + i)))))
  else []

/-- Number of cancel calls in an action trace. -/
def countCancels (l : List MMAction) : Nat :=
  (l.filter fun a =>
    match a with
    | MMAction.cancelAction _ => true
    | _ => false).length

/-- Number of place-order calls in an action trace. -/
def countPlaces (l : List MMAction) : Nat :=
  (l.filter fun a =>
    match a with
    | MMAction.placeAction _ _ => true
    | _ => false).length

/-- `MarketMaker.isPriceDeviationSignificant`: significant when either
price is zero, else when `|Δ| * 10000 / oldPrice` (bigint division)
strictly exceeds the configured threshold. -/
def isPriceDeviationSignificant (priceDeviationThresholdBps oldPrice newPrice : Int) : Bool :=
  if oldPrice = 0 ∨ newPrice = 0 then true
  else
    let priceDifference := if oldPrice > newPrice then oldPrice - newPrice else newPrice - oldPrice
    let deviationBps := (priceDifference * 10000).tdiv oldPrice
    decide (deviationBps > priceDeviationThresholdBps)

/-- The price-resolution part of `MarketMaker.updateMarketData` (the
variant with the static default): Binance only if enabled, Chainlink if
the running value is still 0, the configured default if still 0, and
`lastMidPrice` is overwritten only by a strictly positive result.
Each argument is the value the corresponding source would produce,
`0` standing for a failed fetch (both fetchers return `0n` on error). -/
def updateMarketData (useBinancePrice : Bool)
    (binancePrice chainlinkPrice defaultPrice lastMidPrice : Int) : Int :=
  let price : Int := if useBinancePrice then binancePrice else 0
  let price : Int := if price = 0 then chainlinkPrice else price
  let price : Int := if price = 0 then defaultPrice else price
  if price > 0 then price else lastMidPrice

/-- The spec's wording of the fallback chain, for comparison: take the
first strictly positive source value in order, else keep the previous
reference price. -/
def specFirstPositivePrice (sources : List Int) (previous : Int) : Int :=
  match sources.find? (fun p => decide (0 < p)) with
  | some p => p
  | none => previous

/-! ## Theorems -/

/-- Claim C1: a submission whose transaction call fails on every attempt
with a nonce-class error makes exactly 5 attempts; after each failed
attempt the on-chain transaction count is re-fetched (and adopted) and
the loop waits `2^attempt` seconds (1s, 2s, 4s, 8s, 16s); then the last
error is surfaced to the caller. -/
theorem nonce_error_retries_five_times {α : Type} (tx : Nat → Except String α)
    (msgs : Nat → String) (initFetch : Except String Nat) (m n p : Nat)
    (hfail : ∀ a, a < 5 → tx a = Except.error (msgs a))
    (hnonce : ∀ a, a < 5 → isNonceError (msgs a) = true) :
    executeWithNonce tx initFetch (fun _ => Except.ok m) 5 ⟨some n, p⟩ =
      (Except.error (msgs 4), ⟨some m, p⟩,
        [Ev.txAttempt (some n), Ev.fetchNonce, Ev.sleep 1000,
         Ev.txAttempt (some m), Ev.fetchNonce, Ev.sleep 2000,
         Ev.txAttempt (some m), Ev.fetchNonce, Ev.sleep 4000,
         Ev.txAttempt (some m), Ev.fetchNonce, Ev.sleep 8000,
         Ev.txAttempt (some m), Ev.fetchNonce, Ev.sleep 16000]) := by
  have e0 := hfail 0 (by omega)
  have e1 := hfail 1 (by omega)
  have e2 := hfail 2 (by omega)
  have e3 := hfail 3 (by omega)
  have e4 := hfail 4 (by omega)
  have f0 := hnonce 0 (by omega)
  have f1 := hnonce 1 (by omega)
  have f2 := hnonce 2 (by omega)
  have f3 := hnonce 3 (by omega)
  have f4 := hnonce 4 (by omega)
  simp [executeWithNonce, ewnLoop, e0, e1, e2, e3, e4, f0, f1, f2, f3, f4]

/-- Witness for C1 at a concrete always-failing transaction. -/
theorem nonce_error_retries_five_times_witness :
    executeWithNonce (fun _ => (Except.error "nonce too low" : Except String Nat))
      (Except.ok 9) (fun _ => Except.ok 7) 5 ⟨some 3, 0⟩ =
      (Except.error "nonce too low", ⟨some 7, 0⟩,
        [Ev.txAttempt (some 3), Ev.fetchNonce, Ev.sleep 1000,
         Ev.txAttempt (some 7), Ev.fetchNonce, Ev.sleep 2000,
         Ev.txAttempt (some 7), Ev.fetchNonce, Ev.sleep 4000,
         Ev.txAttempt (some 7), Ev.fetchNonce, Ev.sleep 8000,
         Ev.txAttempt (some 7), Ev.fetchNonce, Ev.sleep 16000]) :=
  nonce_error_retries_five_times (fun _ => Except.error "nonce too low")
    (fun _ => "nonce too low") (Except.ok 9) 7 3 0
    (fun _ _ => rfl) (fun _ _ => rfl)

/-- Claim C2: a submission whose transaction call fails with an error
containing none of the nonce-class substrings rejects with that error
after exactly one invocation of the transaction function, with no
nonce re-fetch and no backoff sleep. -/
theorem non_nonce_error_single_attempt {α : Type} (tx : Nat → Except String α) (msg : String)
    (initFetch : Except String Nat) (netNonce : Nat → Except String Nat) (n p : Nat)
    (h0 : tx 0 = Except.error msg) (hnn : isNonceError msg = false) :
    executeWithNonce tx initFetch netNonce 5 ⟨some n, p⟩ =
      (Except.error msg, ⟨some n, p⟩, [Ev.txAttempt (some n)]) := by
  simp [executeWithNonce, ewnLoop, h0, hnn]

/-- Witness for C2 at a concrete reverted transaction. -/
theorem non_nonce_error_single_attempt_witness :
    executeWithNonce (fun _ => (Except.error "execution reverted" : Except String Nat))
      (Except.ok 9) (fun _ => Except.ok 7) 5 ⟨some 3, 2⟩ =
      (Except.error "execution reverted", ⟨some 3, 2⟩, [Ev.txAttempt (some 3)]) :=
  non_nonce_error_single_attempt (fun _ => Except.error "execution reverted")
    "execution reverted" (Except.ok 9) (fun _ => Except.ok 7) 3 2 rfl (by decide)

/-- Claim C10: on a non-nonce-class failure the promise is rejected and
the nonce state (`currentNonce` and `pendingTransactions`) is exactly
what it was when the transaction call was made (lazy initialization of
`currentNonce` happens before that call). -/
theorem non_nonce_error_preserves_state {α : Type} (tx : Nat → Except String α) (msg : String)
    (initFetch : Except String Nat) (netNonce : Nat → Except String Nat)
    (st : NonceState) (n : Nat) (hcur : st.currentNonce = some n)
    (h0 : tx 0 = Except.error msg) (hnn : isNonceError msg = false) :
    (executeWithNonce tx initFetch netNonce 5 st).1 = Except.error msg ∧
    (executeWithNonce tx initFetch netNonce 5 st).2.1 = st := by
  obtain ⟨cn, pend⟩ := st
  simp only [NonceState.mk.injEq] at hcur ⊢
  cases hcur
  simp [executeWithNonce, ewnLoop, h0, hnn]

/-- Witness for C10 at a concrete reverted transaction. -/
theorem non_nonce_error_preserves_state_witness :
    (executeWithNonce (fun _ => (Except.error "insufficient funds" : Except String Nat))
      (Except.ok 9) (fun _ => Except.ok 7) 5 ⟨some 4, 1⟩).1 = Except.error "insufficient funds" ∧
    (executeWithNonce (fun _ => (Except.error "insufficient funds" : Except String Nat))
      (Except.ok 9) (fun _ => Except.ok 7) 5 ⟨some 4, 1⟩).2.1 = (⟨some 4, 1⟩ : NonceState) :=
  non_nonce_error_preserves_state (fun _ => Except.error "insufficient funds")
    "insufficient funds" (Except.ok 9) (fun _ => Except.ok 7) ⟨some 4, 1⟩ 4 rfl rfl (by decide)

/-- Claim C5: for mid 200000000000, spread 20 bps, step 10 bps, depth 3,
the integer ladder formula yields buy prices 199600000000, 199400000000,
199200000000 and sell prices 200400000000, 200600000000, 200800000000. -/
theorem ladder_prices_concrete :
    (List.range 3).map (ladderBuyPrice 200000000000 20 10) =
      [199600000000, 199400000000, 199200000000] ∧
    (List.range 3).map (ladderSellPrice 200000000000 20 10) =
      [200400000000, 200600000000, 200800000000] := by
  decide

/-- Claim C6: for positive prices the deviation check computes
`|newPrice - oldPrice| * 10000 / oldPrice` in floor arithmetic and is
significant iff that value strictly exceeds the threshold; at the
boundary (old 200000000000, new 210000000000, threshold 500) the
deviation is exactly 500 bps and is not significant. -/
theorem price_deviation_strict (priceDeviationThresholdBps oldPrice newPrice : Int)
    (hOld : 0 < oldPrice) (hNew : 0 < newPrice) :
    (isPriceDeviationSignificant priceDeviationThresholdBps oldPrice newPrice = true ↔
      priceDeviationThresholdBps < |newPrice - oldPrice| * 10000 / oldPrice) ∧
    |(210000000000 : Int) - 200000000000| * 10000 / 200000000000 = 500 ∧
    isPriceDeviationSignificant 500 200000000000 210000000000 = false := by
  refine ⟨?_, by decide, by decide⟩
  have hne : ¬(oldPrice = 0 ∨ newPrice = 0) := by
    push_neg
    exact ⟨hOld.ne', hNew.ne'⟩
  have hdiff : (if oldPrice > newPrice then oldPrice - newPrice else newPrice - oldPrice) =
      |newPrice - oldPrice| := by
    rcases lt_or_le newPrice oldPrice with hlt | hle
    · rw [if_pos hlt, abs_of_neg (by omega)]
      ring
    · rw [if_neg (not_lt.mpr hle), abs_of_nonneg (by omega)]
  simp only [isPriceDeviationSignificant, if_neg hne, decide_eq_true_eq, hdiff]
  rw [Int.tdiv_eq_ediv (mul_nonneg (abs_nonneg (newPrice - oldPrice)) (by norm_num)) hOld.le]

/-- Witness for C6 at the boundary prices. -/
theorem price_deviation_strict_witness :
    (isPriceDeviationSignificant 500 200000000000 210000000000 = true ↔
      (500 : Int) < |(210000000000 : Int) - 200000000000| * 10000 / 200000000000) ∧
    |(210000000000 : Int) - 200000000000| * 10000 / 200000000000 = 500 ∧
    isPriceDeviationSignificant 500 200000000000 210000000000 = false :=
  price_deviation_strict 500 200000000000 210000000000 (by decide) (by decide)

/-- Claim C7: when the exchange already reports exactly
`maxOrdersPerSide` open orders on each side, a fill-gaps cycle computes
zero missing rungs per side and issues no place-order call. -/
theorem fill_gaps_idempotent (maxOrdersPerSide : Nat)
    (lastMidPrice spreadBasisPoints priceStepBasisPoints : Int) (quoteDecimals : Nat) :
    fillMissingOrders maxOrdersPerSide maxOrdersPerSide maxOrdersPerSide
      lastMidPrice spreadBasisPoints priceStepBasisPoints quoteDecimals = [] := by
  simp [fillMissingOrders]

/-- Appending action traces adds their cancel counts. -/
theorem countCancels_append (a b : List MMAction) :
    countCancels (a ++ b) = countCancels a + countCancels b := by
  simp [countCancels, List.filter_append]

/-- Appending action traces adds their place counts. -/
theorem countPlaces_append (a b : List MMAction) :
    countPlaces (a ++ b) = countPlaces a + countPlaces b := by
  simp [countPlaces, List.filter_append]

/-- `cancelAllOrders` issues one cancel per open order. -/
theorem countCancels_cancelAllOrders (orders : List OrderInfo) :
    countCancels (cancelAllOrders orders) = orders.length := by
  induction orders with
  | nil => rfl
  | cons o os ih => simpa [cancelAllOrders, countCancels, List.filter_cons] using ih

/-- `cancelAllOrders` issues no place call. -/
theorem countPlaces_cancelAllOrders (orders : List OrderInfo) :
    countPlaces (cancelAllOrders orders) = 0 := by
  induction orders with
  | nil => rfl
  | cons o os ih => simp [cancelAllOrders, countPlaces, List.filter_cons, ih]

/-- A mapped list of place actions contains no cancel call. -/
theorem countCancels_map_place (g : Nat → Side) (f : Nat → Int) (l : List Nat) :
    countCancels (l.map fun i => MMAction.placeAction (g i) (f i)) = 0 := by
  induction l with
  | nil => rfl
  | cons x xs ih => simp [countCancels, List.filter_cons, ih]

/-- A mapped list of place actions is all place calls. -/
theorem countPlaces_map_place (g : Nat → Side) (f : Nat → Int) (l : List Nat) :
    countPlaces (l.map fun i => MMAction.placeAction (g i) (f i)) = l.length := by
  induction l with
  | nil => rfl
  | cons x xs ih => simpa [countPlaces, List.filter_cons] using ih

/-- Claim C8: a replace-all cycle over K previously-open orders issues
exactly one cancel call per open order, whether or not that cancel
individually fails, and exactly `2 * maxOrdersPerSide` place calls
afterwards. -/
theorem replace_all_counts (orders : List OrderInfo)
    (lastMidPrice spreadBasisPoints priceStepBasisPoints : Int)
    (maxOrdersPerSide quoteDecimals : Nat) (hMid : lastMidPrice ≠ 0) :
    countCancels (cancelAndReplaceOrders orders lastMidPrice spreadBasisPoints
      priceStepBasisPoints maxOrdersPerSide quoteDecimals) = orders.length ∧
    countPlaces (cancelAndReplaceOrders orders lastMidPrice spreadBasisPoints
      priceStepBasisPoints maxOrdersPerSide quoteDecimals) = 2 * maxOrdersPerSide := by
  unfold cancelAndReplaceOrders placeMakerOrders
  rw [if_neg hMid]
  constructor
  · rw [countCancels_append, countCancels_append, countCancels_cancelAllOrders,
      countCancels_map_place (fun _ => Side.buy), countCancels_map_place (fun _ => Side.sell)]
    omega
  · rw [countPlaces_append, countPlaces_append, countPlaces_cancelAllOrders,
      countPlaces_map_place (fun _ => Side.buy), countPlaces_map_place (fun _ => Side.sell)]
    simp [List.length_range]
    omega

/-- Witness for C8 with two open orders, one failing cancel, depth 3. -/
theorem replace_all_counts_witness :
    countCancels (cancelAndReplaceOrders [⟨0, false⟩, ⟨1, true⟩] 200000000000 20 10 3 8) = 2 ∧
    countPlaces (cancelAndReplaceOrders [⟨0, false⟩, ⟨1, true⟩] 200000000000 20 10 3 8) = 6 := by
  have h := replace_all_counts [⟨0, false⟩, ⟨1, true⟩] 200000000000 20 10 3 8 (by decide)
  simpa using h

/-- One accepted send from an already-initialized nonce state:
the counter is incremented by exactly 1, `pendingTransactions` by 1,
and a drift resync is scheduled once 5 sends have accumulated. -/
theorem executeWithNonce_okSend (initFetch : Except String Nat)
    (netNonce : Nat → Except String Nat) (m p : Nat) :
    executeWithNonce okSend initFetch netNonce 5 ⟨some m, p⟩ =
      (Except.ok 0, ⟨some (m + 1), p + 1⟩,
        if p + 1 ≥ 5 then [Ev.txAttempt (some m), Ev.resyncScheduled]
        else [Ev.txAttempt (some m)]) := by
  simp [executeWithNonce, ewnLoop, okSend]
  split <;> rfl

/-- One accepted send from an uninitialized nonce state: the counter is
first set to the fetched on-chain count, then the send proceeds. -/
theorem executeWithNonce_okSend_none (netNonce : Nat → Except String Nat) (n₀ p : Nat) :
    executeWithNonce okSend (Except.ok n₀) netNonce 5 ⟨none, p⟩ =
      (Except.ok 0, ⟨some (n₀ + 1), p + 1⟩,
        if p + 1 ≥ 5 then [Ev.txAttempt (some n₀), Ev.resyncScheduled]
        else [Ev.txAttempt (some n₀)]) := by
  simp [executeWithNonce, ewnLoop, okSend]
  split <;> rfl

/-- An accepted send contributes exactly one assigned nonce to the trace. -/
theorem assignedNonces_okSend (m p : Nat) :
    assignedNonces (if p + 1 ≥ 5 then [Ev.txAttempt (some m), Ev.resyncScheduled]
      else [Ev.txAttempt (some m)]) = [some m] := by
  split <;> rfl

/-- Prepending the image of 0 to a shifted mapped range is the mapped
successor range. -/
theorem cons_map_range_shift {β : Type} (f : Nat → β) (k : Nat) :
    f 0 :: (List.range k).map (fun i => f (i + 1)) = (List.range (k + 1)).map f := by
  rw [List.range_succ_eq_map]
  simp [List.map_map, Function.comp_def]

/-- From an initialized counter at `m`, `k` accepted sends are assigned
the consecutive nonces `m, m+1, …, m+k-1` and leave the counter at `m+k`. -/
theorem runSends_from_some (initFetch : Except String Nat) (netNonce : Nat → Except String Nat) :
    ∀ (k m p : Nat),
      runSends initFetch netNonce k ⟨some m, p⟩ =
        ((List.range k).map (fun i => some (m + i)), ⟨some (m + k), p + k⟩) := by
  intro k
  induction k with
  | zero =>
    intro m p
    simp [runSends]
  | succ k ih =>
    intro m p
    simp only [runSends, executeWithNonce_okSend, assignedNonces_okSend, ih (m + 1) (p + 1)]
    simp only [Prod.mk.injEq]
    constructor
    · rw [← cons_map_range_shift (fun i => some (m + i)) k]
      simp only [List.cons_append, List.nil_append, Nat.add_zero, List.cons.injEq, true_and]
      apply List.map_congr_left
      intro a _
      simp only [Option.some.injEq]
      omega
    · simp only [NonceState.mk.injEq, Option.some.injEq, true_and]
      constructor
      · omega
      · omega

/-- Claim C3: starting from a fresh `ContractService` (no local nonce),
`N ≥ 1` accepted sends with no intervening resync are assigned the
strictly increasing consecutive nonces `n₀, n₀+1, …, n₀+N-1`, where `n₀`
is the on-chain transaction count fetched on first use, and the counter
is incremented by exactly 1 per accepted send, ending at `n₀ + N`. -/
theorem nonce_monotonic_consecutive (N n₀ p : Nat) (netNonce : Nat → Except String Nat)
    (hN : 0 < N) :
    runSends (Except.ok n₀) netNonce N ⟨none, p⟩ =
      ((List.range N).map (fun k => some (n₀ + k)), ⟨some (n₀ + N), p + N⟩) := by
  obtain ⟨K, rfl⟩ : ∃ K, N = K + 1 := ⟨N - 1, by omega⟩
  simp only [runSends, executeWithNonce_okSend_none, assignedNonces_okSend,
    runSends_from_some (Except.ok n₀) netNonce K (n₀ + 1) (p + 1)]
  simp only [Prod.mk.injEq]
  constructor
  · rw [← cons_map_range_shift (fun i => some (n₀ + i)) K]
    simp only [List.cons_append, List.nil_append, Nat.add_zero, List.cons.injEq, true_and]
    apply List.map_congr_left
    intro a _
    simp only [Option.some.injEq]
    omega
  · simp only [NonceState.mk.injEq, Option.some.injEq, true_and]
    constructor
    · omega
    · omega

/-- Witness for C3: six accepted sends from on-chain count 10. -/
theorem nonce_monotonic_consecutive_witness :
    runSends (Except.ok 10) (fun _ => Except.ok 0) 6 ⟨none, 0⟩ =
      ((List.range 6).map (fun k => some (10 + k)), ⟨some (10 + 6), 0 + 6⟩) :=
  nonce_monotonic_consecutive 6 10 0 (fun _ => Except.ok 0) (by omega)

/-- Claim C9: with each source returning a non-negative value (0 on
failure), price resolution consults Binance (only if enabled), then
Chainlink, then the configured default, in that order, and adopts the
first strictly positive value as the new reference price; if every
consulted source returns 0 the reference price keeps its previous
value. -/
theorem price_fallback_chain (useBinancePrice : Bool) (b c d m : Int)
    (hb : 0 ≤ b) (hc : 0 ≤ c) (hd : 0 ≤ d) :
    updateMarketData useBinancePrice b c d m =
      specFirstPositivePrice ((if useBinancePrice then [b] else []) ++ [c, d]) m := by
  have hcase : ∀ x : Int, 0 ≤ x → x = 0 ∨ 0 < x := fun x hx => by omega
  cases useBinancePrice with
  | false =>
    rcases hcase c hc with hc0 | hcpos
    · rcases hcase d hd with hd0 | hdpos
      · simp [updateMarketData, specFirstPositivePrice, hc0, hd0]
      · simp [updateMarketData, specFirstPositivePrice, hc0, hdpos, hdpos.ne']
    · simp [updateMarketData, specFirstPositivePrice, hcpos, hcpos.ne']
  | true =>
    rcases hcase b hb with hb0 | hbpos
    · rcases hcase c hc with hc0 | hcpos
      · rcases hcase d hd with hd0 | hdpos
        · simp [updateMarketData, specFirstPositivePrice, hb0, hc0, hd0]
        · simp [updateMarketData, specFirstPositivePrice, hb0, hc0, hdpos, hdpos.ne']
      · simp [updateMarketData, specFirstPositivePrice, hb0, hcpos, hcpos.ne']
    · simp [updateMarketData, specFirstPositivePrice, hbpos, hbpos.ne']

/-- Witness for C9: Binance enabled but failing, Chainlink succeeding. -/
theorem price_fallback_chain_witness :
    updateMarketData true 0 5 3 9 =
      specFirstPositivePrice ((if true then [0] else []) ++ [5, 3]) 9 :=
  price_fallback_chain true 0 5 3 9 (by omega) (by omega) (by omega)

/-- Decomposing `range' s n` around one distinguished element: the part
before it is itself a consecutive range and the element is its end. -/
theorem append_cons_range' (a : List Nat) (b : Nat) (c : List Nat) :
    ∀ s n, a ++ b :: c = List.range' s n → a = List.range' s a.length ∧ b = s + a.length := by
  induction a with
  | nil =>
    intro s n h
    cases n with
    | zero => simp [List.range'] at h
    | succ n' =>
      rw [List.range'_succ] at h
      simp at h
      exact ⟨rfl, by simp [h.1]⟩
  | cons x a' ih =>
    intro s n h
    cases n with
    | zero => simp [List.range'] at h
    | succ n' =>
      rw [List.range'_succ] at h
      simp at h
      obtain ⟨hx, htail⟩ := h
      obtain ⟨ha', hb⟩ := ih (s + 1) n' htail
      constructor
      · simp [List.range'_succ, hx, ← ha']
      · simp [hb]
        omega

/-- In `a ++ b :: c = range n`, the prefix `a` is exactly `range b`. -/
theorem append_cons_range (a : List Nat) (b : Nat) (c : List Nat) (n : Nat)
    (h : a ++ b :: c = List.range n) : a = List.range b := by
  rw [List.range_eq_range'] at h
  obtain ⟨ha, hb⟩ := append_cons_range' a b c 0 n h
  rw [ha, List.range_eq_range', hb]
  simp

/-- The initial queue state satisfies the queue invariant. -/
theorem qInv_init : QInv QInit := by
  refine ⟨by simp [QInit], fun _ => rfl, by simp [QInit]⟩

/-- Pushing the next submission onto the queue preserves the invariant. -/
theorem qInv_push (s : QState) (h : QInv s) :
    QInv { s with nextId := s.nextId + 1,
                  transactionQueue := s.transactionQueue ++ [s.nextId] } := by
  obtain ⟨h1, h2, h3⟩ := h
  refine ⟨h1, h2, ?_⟩
  simp only [List.range_succ, ← h3]
  simp [List.append_assoc]

/-- The synchronous part of `processQueue` preserves the invariant: it
starts a submission only when the guard is clear, hence when nothing is
running. -/
theorem qInv_processQueueSync (s : QState) (h : QInv s) : QInv (processQueueSync s) := by
  obtain ⟨h1, h2, h3⟩ := h
  unfold processQueueSync
  split
  · exact ⟨h1, h2, h3⟩
  · rename_i hproc
    have hrun : s.running = [] := h2 (by simpa using hproc)
    split
    · exact ⟨h1, h2, h3⟩
    · rename_i hd tl hq
      refine ⟨by simp [hrun], by intro hfalse; simp at hfalse, ?_⟩
      have h3' := h3
      rw [hrun, hq] at h3'
      simp at h3'
      simpa [hrun] using h3'

/-- Every event-loop step preserves the queue invariant. -/
theorem qStep_inv {s t : QState} (h : QInv s) (hst : QStep s t) : QInv t := by
  cases hst with
  | submit => exact qInv_processQueueSync _ (qInv_push s h)
  | complete id hid =>
    obtain ⟨h1, h2, h3⟩ := h
    refine ⟨by simp, fun _ => rfl, ?_⟩
    rw [hid] at h3
    simpa using h3
  | kick => exact qInv_processQueueSync s h

/-- Every reachable queue state satisfies the invariant. -/
theorem qReach_inv {s : QState} (h : QReach s) : QInv s := by
  induction h with
  | init => exact qInv_init
  | step _ hst ih => exact qStep_inv ih hst

/-- When `processQueue` starts a submission, nothing was running and the
started submission is the oldest unresolved one: all earlier submissions
are already terminally resolved. -/
theorem processQueueSync_start (s : QState) (h : QInv s) (id : Nat)
    (hmem : id ∈ (processQueueSync s).running) (hnot : id ∉ s.running) :
    s.running = [] ∧ s.resolved = List.range id := by
  obtain ⟨h1, h2, h3⟩ := h
  unfold processQueueSync at hmem
  split at hmem
  · exact absurd hmem hnot
  · rename_i hproc
    have hrun : s.running = [] := h2 (by simpa using hproc)
    split at hmem
    · exact absurd hmem hnot
    · rename_i hd tl hq
      simp [hrun] at hmem
      subst hmem
      refine ⟨hrun, ?_⟩
      rw [hrun, hq] at h3
      simp at h3
      exact append_cons_range _ _ _ _ h3

/-- Claim C4: in every reachable queue state at most one submission is
executing, the resolved, running and still-queued submissions in that
order are exactly the submissions in the order they were enqueued, and
whenever a step starts executing a submission, every earlier submission
has already terminally resolved (and nothing was executing): execution
is first-in-first-out with no overlap. -/
theorem queue_fifo_serialized (s t : QState) (hs : QReach s) (hstep : QStep s t) :
    s.running.length ≤ 1 ∧
    s.resolved ++ s.running ++ s.transactionQueue = List.range s.nextId ∧
    (∀ id : Nat, id ∈ t.running → id ∉ s.running →
      s.running = [] ∧ s.resolved = List.range id) := by
  have hinv := qReach_inv hs
  obtain ⟨h1, h2, h3⟩ := hinv
  refine ⟨h1, h3, ?_⟩
  intro id hmem hnot
  cases hstep with
  | submit =>
    have hpush := qInv_push s ⟨h1, h2, h3⟩
    have hstart := processQueueSync_start _ hpush id hmem (by simpa using hnot)
    exact hstart
  | complete cid hcid =>
    simp at hmem
  | kick =>
    exact processQueueSync_start s ⟨h1, h2, h3⟩ id hmem hnot

/-- Witness for C4: the first submission into a fresh queue starts with
nothing resolved and nothing running. -/
theorem queue_fifo_serialized_witness :
    QInit.running.length ≤ 1 ∧
    QInit.resolved ++ QInit.running ++ QInit.transactionQueue = List.range QInit.nextId ∧
    (∀ id : Nat, id ∈ (queueTransactionCall QInit).running → id ∉ QInit.running →
      QInit.running = [] ∧ QInit.resolved = List.range id) :=
  queue_fifo_serialized QInit (queueTransactionCall QInit) QReach.init (QStep.submit QInit)

end BaristaBot
